import Mathlib

/-!
AtomiAutoSolver — verification of the content-script automation behaviors

Shallow embedding of the parts of `extension/content.js` and
`extension/popup.js` that the specification's claims are about:

* the oracle answer parse of `callGroqAPI` (regex `\b([1-9]\d?)\b` over the
  space-joined content/reasoning text);
* `solveCurrentQuestion` (answer-button actuation);
* the video watchdog's `checkTime` / `ended` handlers and their one-shot
  `advanced` guard;
* the `runAllQuestions` loop and its advisory `isAutoRunning` stop flag;
* the DOM-inspection functions `isQuizPage`, `getQuestionText`, `getAnswers`,
  `getAnswerButtons`, `findInDocument`, and the button polls
  `waitForCheckAnswerEnabled` / `waitForNextButton`, over an explicit DOM tree
  with shadow roots;
* `setMathFieldValue` (the math-field write sequence) as a trace of steps;
* the popup's `isChatModel` filter and `fetchModels` sort.

Machine strings are modelled as `List Char`; JS `null` as `Option`.
-/

namespace Atomi

/-! ## Character and string utilities

JS regex word characters (`\w` and the `\b` boundary classes) are ASCII
letters, digits and underscore.  `Char.isAlphanum` is exactly ASCII
letters-or-digits. -/

def isWordChar (c : Char) : Bool := c.isAlphanum || c == '_'

/-- JS `String.prototype.trim`: drop whitespace from both ends. -/
def trimChars (cs : List Char) : List Char :=
  ((cs.dropWhile Char.isWhitespace).reverse.dropWhile Char.isWhitespace).reverse

/-- Split a character list into its maximal runs of word characters
(the "words" that `\b` boundaries delimit), in order, dropping the
non-word separators.  `acc` holds the (reversed) run currently being read. -/
def wordRunsAux : List Char → List Char → List (List Char)
  | [], acc => if acc.isEmpty then [] else [acc.reverse]
  | c :: cs, acc =>
    if isWordChar c then wordRunsAux cs (c :: acc)
    else (if acc.isEmpty then [] else [acc.reverse]) ++ wordRunsAux cs []

def wordRuns (cs : List Char) : List (List Char) := wordRunsAux cs []

/-- Decimal value of a digit run (`parseInt(run, 10)` for all-digit runs). -/
def runVal (t : List Char) : Nat :=
  t.foldl (fun a c => 10 * a + (c.toNat - '0'.toNat)) 0

/-- A maximal word run is matched by `\b([1-9]\d?)\b` exactly when it is one
or two characters long, starts with a nonzero digit, and is all digits: the
`\b` on each side forces any match of `[1-9]\d?` to be a whole maximal word
run (the character before and after a match must be non-word), and `matchAll`
finds every such run in order. -/
def isAnswerTok (t : List Char) : Bool :=
  match t with
  | [c] => '1' ≤ c && c ≤ '9'
  | [c, d] => ('1' ≤ c && c ≤ '9') && d.isDigit
  | _ => false

/-! ## `callGroqAPI` answer parse (content.js lines 374–382)

```js
const content = (msg.content || '').trim();
const reasoning = (msg.reasoning || '').trim();
const combined = `${content} ${reasoning}`;
const matches = [...combined.matchAll(/\b([1-9]\d?)\b/g)];
const numChoices = answers.length;
const valid = matches.map(m => parseInt(m[1], 10)).filter(n => n >= 1 && n <= numChoices);
return valid.length > 0 ? valid[valid.length - 1] : null;
```
-/

def parseAnswerIndexChars (content reasoning : List Char) (numChoices : Nat) :
    Option Nat :=
  let combined := trimChars content ++ [' '] ++ trimChars reasoning
  let valid :=
    (((wordRuns combined).filter isAnswerTok).map runVal).filter
      (fun n => 1 ≤ n && n ≤ numChoices)
  valid.getLast?

/-- The parse performed by `callGroqAPI` on an oracle response whose primary
content is `content`, whose reasoning field is `reasoning`, and whose answer
list has `numChoices` entries. -/
def parseAnswerIndex (content reasoning : String) (numChoices : Nat) : Option Nat :=
  parseAnswerIndexChars content.data reasoning.data numChoices

/-- Stated per the claim's words (refinement side, not from the source): the
last integer token in the range `[1, n]` occurring in the concatenation of
`c` and `r`, where an integer token is a maximal alphanumeric run consisting
entirely of digits, and `none` when no such token occurs. -/
def claimLastTokenOfConcat (c r : String) (n : Nat) : Option Nat :=
  let toks := wordRuns (c.data ++ r.data)
  (((toks.filter (fun t => !t.isEmpty && t.all Char.isDigit)).map runVal).filter
      (fun v => 1 ≤ v && v ≤ n)).getLast?

/-- Stated per the amended claim's words (refinement side, not from the
source): the value of the last integer token of the space-separated
concatenation of `c` and `r` whose value lies in `[1, n]`, where an integer
token is a maximal alphanumeric run of one or two digits beginning with a
nonzero digit; `none` when no such token occurs. -/
def amendedLastToken (c r : String) (n : Nat) : Option Nat :=
  ((wordRuns (trimChars c.data ++ [' '] ++ trimChars r.data)).reverse.find?
      (fun t => isAnswerTok t && (1 ≤ runVal t && runVal t ≤ n))).map runVal

/-! ## DOM model

A DOM node is a text node or an element with a tag, attributes, an (open)
shadow tree and light children.  A node with an empty `shadow` list stands
for a node with no shadow root.  A document is modelled by its root element
(the `html` element, which none of the script's selectors match), and
`document.querySelector` by a search over the root's descendants. -/

inductive Dom where
  | text (s : String) : Dom
  | elem (tag : String) (attrs : List (String × String)) (shadow : List Dom)
      (children : List Dom) : Dom

def Dom.isElem : Dom → Bool
  | .text _ => false
  | .elem _ _ _ _ => true

def Dom.attr (d : Dom) (name : String) : Option String :=
  match d with
  | .text _ => none
  | .elem _ attrs _ _ => attrs.lookup name

/-- `hasAttribute`: the attribute is present, whatever its value. -/
def Dom.hasAttr (d : Dom) (name : String) : Bool := (d.attr name).isSome

/-- The `disabled` IDL property of a button reflects the presence of its
`disabled` content attribute. -/
def Dom.disabledProp (d : Dom) : Bool := d.hasAttr "disabled"

mutual
/-- `textContent`: concatenated text of the light descendants (shadow trees
are not part of `textContent`). -/
def Dom.textContent : Dom → String
  | .text s => s
  | .elem _ _ _ cs => textContentList cs

def textContentList : List Dom → String
  | [] => ""
  | c :: cs => c.textContent ++ textContentList cs
end

/-- The simple CSS selectors the content script uses: an optional tag-name
constraint, an optional required attribute (`ul[aria-labelledby]`), an
optional exact attribute value (`button[type="button"]`) and an optional
attribute-substring constraint (`[class*="Markdown"]`). -/
structure Selector where
  tagName : Option String := none
  attrPresent : Option String := none
  attrEq : Option (String × String) := none
  attrHasSub : Option (String × String) := none

/-- Does `needle` occur as a contiguous substring of `hay`
(JS `String.prototype.includes`)? -/
def containsSeq (hay needle : List Char) : Bool :=
  match hay with
  | [] => needle.isEmpty
  | _ :: t => needle.isPrefixOf hay || containsSeq t needle

def Dom.matches (d : Dom) (sel : Selector) : Bool :=
  match d with
  | .text _ => false
  | .elem tag _ _ _ =>
    (match sel.tagName with | none => true | some t => tag == t) &&
    (match sel.attrPresent with | none => true | some a => d.hasAttr a) &&
    (match sel.attrEq with
     | none => true
     | some (a, v) => d.attr a == some v) &&
    (match sel.attrHasSub with
     | none => true
     | some (a, v) =>
       match d.attr a with
       | none => false
       | some w => containsSeq w.data v.data)

mutual
/-- Light-DOM descendants of a node, in document (pre-)order, text nodes
included (selectors never match them). -/
def Dom.descendants : Dom → List Dom
  | .text _ => []
  | .elem _ _ _ cs => descList cs

def descList : List Dom → List Dom
  | [] => []
  | c :: cs => c :: (c.descendants ++ descList cs)
end

/-- `root.querySelectorAll(sel)` (light DOM only, document order). -/
def Dom.qsa (root : Dom) (sel : Selector) : List Dom :=
  root.descendants.filter (fun d => d.matches sel)

/-- `root.querySelector(sel)`: first light-DOM descendant match. -/
def Dom.qs (root : Dom) (sel : Selector) : Option Dom := (root.qsa sel).head?

/-! ### `findInDocument` (content.js lines 36–46)

```js
function findInDocument(root, selector) {
  const el = root.querySelector?.(selector);
  if (el) return el;
  for (const node of root.querySelectorAll?.('*') || []) {
    if (node.shadowRoot) {
      const found = findInDocument(node.shadowRoot, selector);
      if (found) return found;
    }
  }
  return null;
}
```

The recursion is modelled on forests: `rootedFind sel ns` is
`findInDocument` on a container whose content list is `ns` (the children of
an element root, or of a shadow root); `firstMatch` is `querySelector` over
the forest; `shadowScan` walks the forest's nodes in document order and
recurses into every shadow root found. -/

mutual
def firstMatch (sel : Selector) : List Dom → Option Dom
  | [] => none
  | c :: cs =>
    if c.matches sel then some c
    else
      match firstMatchInside sel c with
      | some e => some e
      | none => firstMatch sel cs

def firstMatchInside (sel : Selector) : Dom → Option Dom
  | .text _ => none
  | .elem _ _ _ ch => firstMatch sel ch

def shadowScan (sel : Selector) : List Dom → Option Dom
  | [] => none
  | c :: cs =>
    match shadowScanInside sel c with
    | some e => some e
    | none => shadowScan sel cs

def shadowScanInside (sel : Selector) : Dom → Option Dom
  | .text _ => none
  | .elem _ _ sh ch =>
    match (if sh.isEmpty then none
        else Option.orElse (firstMatch sel sh) (fun _ => shadowScan sel sh)) with
    | some e => some e
    | none => shadowScan sel ch
end

/-- `findInDocument` on a container holding the nodes `ns` (the children of
an element root, or the contents of a shadow root): the light query first,
then the shadow pass over the same nodes. -/
def rootedFind (sel : Selector) (ns : List Dom) : Option Dom :=
  Option.orElse (firstMatch sel ns) (fun _ => shadowScan sel ns)

def findInDocument (root : Dom) (sel : Selector) : Option Dom :=
  match root with
  | .text _ => none
  | .elem _ _ _ ch => rootedFind sel ch

mutual
/-- Shadow-inclusive descendants of a node: every node reachable through
light children or shadow trees. -/
def Dom.shadowDesc : Dom → List Dom
  | .text _ => []
  | .elem _ _ sh ch => shadowDescList sh ++ shadowDescList ch

def shadowDescList : List Dom → List Dom
  | [] => []
  | c :: cs => c :: (c.shadowDesc ++ shadowDescList cs)
end

/-- The node set `findInDocument` can reach from a root: its shadow-inclusive
descendants (the root's own shadow tree is never consulted, matching
`findInDocument`'s callers, which pass the document or a shadow root). -/
def searchSpace : Dom → List Dom
  | .text _ => []
  | .elem _ _ _ ch => shadowDescList ch

/-! ## Quiz page selectors (content.js `QUIZ_SELECTORS`) -/

def articleSel : Selector := { tagName := some "article" }
def answerListSel : Selector := { tagName := some "ul", attrPresent := some "aria-labelledby" }
def liSel : Selector := { tagName := some "li" }
def answerButtonSel : Selector := { tagName := some "button", attrEq := some ("type", "button") }
def markdownSel : Selector := { attrHasSub := some ("class", "Markdown") }
def divSel : Selector := { tagName := some "div" }
def buttonSel : Selector := { tagName := some "button" }

def toLowerChars (cs : List Char) : List Char := cs.map Char.toLower

/-- Case-insensitive prefix test against a lowercase pattern. -/
def startsWithInsens (pat cs : List Char) : Bool := pat.isPrefixOf (toLowerChars cs)

/-! ### `answerList.querySelectorAll('ul[aria-labelledby] > li')`

The child-combinator selector matches, among the descendants of the query
root, every `li` whose parent element matches `ul[aria-labelledby]`; the
flag carried through the recursion records whether the current parent does. -/

mutual
def answerItemsUnder (pm : Bool) : List Dom → List Dom
  | [] => []
  | c :: cs =>
    (if pm && c.matches liSel then [c] else []) ++
      answerItemsInside c ++ answerItemsUnder pm cs

def answerItemsInside : Dom → List Dom
  | .text _ => []
  | .elem t a sh ch => answerItemsUnder ((Dom.elem t a sh ch).matches answerListSel) ch
end

def answerItems (al : Dom) : List Dom := answerItemsInside al

/-! ### `isQuizPage` (content.js lines 289–302) -/

def isQuizPage (doc : Dom) : Bool :=
  match doc.qs answerListSel with
  | none => false
  | some al =>
    let items := answerItems al
    if items.length < 2 then false
    else
      let buttons := items.filterMap (fun li => li.qs answerButtonSel)
      !(buttons.length < 2)

/-! ### `getQuestionText` (content.js lines 304–323) -/

/-- Replace the first occurrence of `/Atomi Question\s*/i`: if a
case-insensitive match of `"atomi question"` starts here, drop it and the
whitespace after it. -/
def atomiMatchAt (cs : List Char) : Option (List Char) :=
  if startsWithInsens "atomi question".data cs then
    some ((cs.drop 14).dropWhile Char.isWhitespace)
  else none

def replaceAtomiQuestion : List Char → List Char
  | [] => []
  | c :: cs =>
    match atomiMatchAt (c :: cs) with
    | some rest => rest
    | none => c :: replaceAtomiQuestion cs

mutual
/-- Search a sibling forest in document order for the first match of `sel`,
returning it together with its preceding element siblings, nearest first
(the chain `previousElementSibling` walks). -/
def findPrevSibs (sel : Selector) (prevs : List Dom) : List Dom → Option (List Dom × Dom)
  | [] => none
  | c :: cs =>
    if c.matches sel then some (prevs, c)
    else
      match findPrevSibsInside sel c with
      | some r => some r
      | none => findPrevSibs sel (if c.isElem then c :: prevs else prevs) cs

def findPrevSibsInside (sel : Selector) : Dom → Option (List Dom × Dom)
  | .text _ => none
  | .elem _ _ _ ch => findPrevSibs sel [] ch
end

/-- The `while (questionContainer)` walk over preceding element siblings. -/
def questionFromPrevs : List Dom → Option String
  | [] => none
  | p :: ps =>
    let txt := trimChars p.textContent.data
    if !txt.isEmpty && !(containsSeq txt "Atomi Question".data) && 5 < txt.length then
      some (String.mk (trimChars (replaceAtomiQuestion txt)))
    else questionFromPrevs ps

/-- The zero-width lookahead `/(?=Choice [A-Z]|50\.|53\.|56\.)/i`. -/
def splitLookAhead (cs : List Char) : Bool :=
  (startsWithInsens "choice ".data cs &&
    (match cs.drop 7 with | c :: _ => c.isAlpha | [] => false)) ||
  startsWithInsens "50.".data cs ||
  startsWithInsens "53.".data cs ||
  startsWithInsens "56.".data cs

def takeToLookAhead : List Char → List Char
  | [] => []
  | c :: cs => if splitLookAhead (c :: cs) then [] else c :: takeToLookAhead cs

/-- `allText.split(lookahead)[0]`: the text up to the first lookahead
position after the start (a zero-width split match at position 0 produces no
leading empty part). -/
def firstSplitPart : List Char → List Char
  | [] => []
  | c :: cs => c :: takeToLookAhead cs

/-- `getQuestionText`: walk the element siblings preceding the answer list
inside the `article`; fall back to splitting the article's whole text
(`innerText` approximated by `textContent`). -/
def getQuestionText (doc : Dom) : String :=
  match doc.qs articleSel with
  | none => ""
  | some article =>
    let fromSibs :=
      match findPrevSibsInside answerListSel article with
      | some (prevs, _) => questionFromPrevs prevs
      | none => none
    match fromSibs with
    | some q => q
    | none =>
      String.mk (trimChars (replaceAtomiQuestion (firstSplitPart article.textContent.data)))

/-! ### `getAnswers` / `getAnswerButtons` (content.js lines 325–345) -/

/-- Replace the first occurrence of `/Choice [A-Z]\s*/i`. -/
def choiceMatchAt (cs : List Char) : Option (List Char) :=
  if startsWithInsens "choice ".data cs then
    match cs.drop 7 with
    | c :: rest => if c.isAlpha then some (rest.dropWhile Char.isWhitespace) else none
    | [] => none
  else none

def replaceChoice : List Char → List Char
  | [] => []
  | c :: cs =>
    match choiceMatchAt (c :: cs) with
    | some rest => rest
    | none => c :: replaceChoice cs

/-- The visible label of an answer button:
`(textEl?.textContent || btn.textContent || '').replace(/Choice [A-Z]\s*/i, '').trim()`
where `textEl` is the button's first `[class*="Markdown"]` descendant, else
its first `div` descendant. -/
def answerLabel (btn : Dom) : String :=
  let textEl :=
    match btn.qs markdownSel with
    | some te => some te
    | none => btn.qs divSel
  let base :=
    match textEl with
    | some te => if te.textContent = "" then btn.textContent else te.textContent
    | none => btn.textContent
  String.mk (trimChars (replaceChoice base.data))

def getAnswers (doc : Dom) : List String :=
  match doc.qs answerListSel with
  | none => []
  | some al =>
    ((answerItems al).map (fun li =>
        match li.qs answerButtonSel with
        | none => ""
        | some btn => answerLabel btn)).filter (fun t => t ≠ "")

def getAnswerButtons (doc : Dom) : List Dom :=
  match doc.qs answerListSel with
  | none => []
  | some al => (answerItems al).filterMap (fun li => li.qs answerButtonSel)

/-- The items of the answer list that have a button, paired with that
button's label: the common refinement of `getAnswers` and
`getAnswerButtons`. -/
def answerRecords (doc : Dom) : List (Dom × String) :=
  match doc.qs answerListSel with
  | none => []
  | some al =>
    (answerItems al).filterMap (fun li =>
      (li.qs answerButtonSel).map (fun btn => (btn, answerLabel btn)))

/-! ### `checkAnswerBtn` / `nextButton` finders and the polls
(content.js lines 28–33 and 549–567) -/

def checkAnswerBtn (doc : Dom) : Option Dom :=
  (doc.qsa buttonSel).find? (fun b => containsSeq b.textContent.data "Check Answer".data)

def nextButton (doc : Dom) : Option Dom :=
  (doc.qsa buttonSel).find? (fun b =>
    let t := toLowerChars (trimChars b.textContent.data)
    (containsSeq t "next".data || containsSeq t "continue".data || t == "→".data) &&
      !(containsSeq t "check".data))

/-- `waitForCheckAnswerEnabled`: poll every 200 ms until the timeout; the
page may change between polls (`pages t` is the document at poll `t`), and
the fuel is the number of polls the timeout allows.  The button qualifies
when it carries no `aria-disabled` attribute at all. -/
def waitForCheckAnswerEnabled (pages : Nat → Dom) : Nat → Nat → Option Dom
  | 0, _ => none
  | fuel + 1, t =>
    match checkAnswerBtn (pages t) with
    | some btn =>
      if !(btn.hasAttr "aria-disabled") then some btn
      else waitForCheckAnswerEnabled pages fuel (t + 1)
    | none => waitForCheckAnswerEnabled pages fuel (t + 1)

/-- `waitForNextButton`: same poll, but the button qualifies when its
`disabled` property is false. -/
def waitForNextButton (pages : Nat → Dom) : Nat → Nat → Option Dom
  | 0, _ => none
  | fuel + 1, t =>
    match nextButton (pages t) with
    | some btn =>
      if !btn.disabledProp then some btn
      else waitForNextButton pages fuel (t + 1)
    | none => waitForNextButton pages fuel (t + 1)

/-! ## `solveCurrentQuestion` (content.js lines 524–543)

The extraction results and the oracle's answer are parameters: `buttonCount`
is the length of the extracted button list, `oracle` the value
`callGroqAPI` resolved to (`none` for `null`).  `clicks` records the
1-based positions of the answer buttons whose `click()` is invoked. -/

inductive SolveReport where
  | success (index : Nat)
  | failure (error : String)
deriving DecidableEq, Repr

structure SolveOutcome where
  report : SolveReport
  clicks : List Nat
deriving DecidableEq, Repr

def solveCurrentQuestionWith (question : String) (answers : List String)
    (buttonCount : Nat) (oracle : Option Nat) : SolveOutcome :=
  if question = "" || answers.length = 0 || buttonCount = 0 then
    { report := .failure "Could not extract question or answers", clicks := [] }
  else
    match oracle with
    | none => { report := .failure "Invalid API response (got null)", clicks := [] }
    | some k =>
      if k < 1 || buttonCount < k then
        { report := .failure s!"Invalid API response (got {k})", clicks := [] }
      else
        { report := .success k, clicks := [k] }

/-! ## Video watchdog (content.js lines 188–229)

`checkTime` runs on each `timeupdate` event and each 500 ms poll tick;
`onEnded` on the `ended` event.  The closure state is the one-shot
`advanced` boolean; `navCount` counts the `advanceToNext()` invocations.
Media times are rationals; a NaN duration is flagged explicitly. -/

structure VideoSnapshot where
  duration : ℚ
  durationIsNaN : Bool
  currentTime : ℚ
  ended : Bool

structure WatchState where
  advanced : Bool
  navCount : Nat
deriving DecidableEq, Repr

def ADVANCE_SECONDS_BEFORE_END : ℚ := 10

def checkTime (enabled : Bool) (v : VideoSnapshot) (s : WatchState) : WatchState :=
  if !enabled || s.advanced then s
  else
    let s1 :=
      if v.duration > 0 && !v.durationIsNaN &&
          v.currentTime ≥ max 0 (v.duration - ADVANCE_SECONDS_BEFORE_END) then
        { advanced := true, navCount := s.navCount + 1 }
      else s
    if v.ended then { advanced := true, navCount := s1.navCount + 1 } else s1

def onEnded (enabled : Bool) (s : WatchState) : WatchState :=
  if !enabled || s.advanced then s
  else { advanced := true, navCount := s.navCount + 1 }

/-! ## `runAllQuestions` (content.js lines 585–633)

One loop iteration: check `isAutoRunning && isQuizPage()` at the boundary;
run `solveCurrentQuestion` (extraction, oracle call, answer click); on
failure break; otherwise wait, click the Check Answer button if its poll
finds one, poll for the Next button and click it to continue, or break.
`env i` describes what the page and oracle do during iteration `i`; the
stop button clears `isAutoRunning`, and `stopAt = some j` means the flag is
cleared while iteration `j` is in flight (after its boundary check, before
the next one).  The trace records the observable actions in order. -/

structure IterEnv where
  isQuiz : Bool
  solveOk : Bool
  checkBtn : Bool
  nextBtn : Bool

inductive RunEvent where
  | extractBegin (i : Nat)
  | answerClick (i : Nat)
  | checkClick (i : Nat)
  | nextClick (i : Nat)
deriving DecidableEq, Repr

def RunEvent.iter : RunEvent → Nat
  | .extractBegin i => i
  | .answerClick i => i
  | .checkClick i => i
  | .nextClick i => i

/-- The value `isAutoRunning` holds at the boundary check of iteration `i`. -/
def flagAt (stopAt : Option Nat) (i : Nat) : Bool :=
  match stopAt with
  | none => true
  | some j => i ≤ j

def runAllTrace (env : Nat → IterEnv) (stopAt : Option Nat) :
    Nat → Nat → List RunEvent
  | 0, _ => []
  | fuel + 1, i =>
    if flagAt stopAt i && (env i).isQuiz then
      .extractBegin i ::
        (if (env i).solveOk then
          .answerClick i ::
            ((if (env i).checkBtn then [.checkClick i] else []) ++
              (if (env i).nextBtn then
                .nextClick i :: runAllTrace env stopAt fuel (i + 1)
              else []))
        else [])
    else []

/-! ## `setMathFieldValue` (content.js lines 445–488)

The write sequence is modelled as the trace of observable steps, in program
order.  `MathFieldApi` records which write APIs the custom element exposes
and whether it has an `id` (the injected page script is only emitted when it
does). -/

structure MathFieldApi where
  id : Option String
  hasSetValue : Bool
  hasInsert : Bool
  hasExecuteCommand : Bool

inductive WriteStep where
  | injectedScript
  | pasteDispatch
  | settle (ms : Nat)
  | apiSetValue
  | apiInsert
  | apiExecuteCommand
  | forcedAssign
  | notifyInput
  | notifyChange
deriving DecidableEq, Repr

/-- The first direct value write: `setValue`, else `insert`, else
`executeCommand`, else `forceSetValue`. -/
def directWrite1 (mf : MathFieldApi) : WriteStep :=
  if mf.hasSetValue then .apiSetValue
  else if mf.hasInsert then .apiInsert
  else if mf.hasExecuteCommand then .apiExecuteCommand
  else .forcedAssign

/-- The re-applied direct write: `setValue`, else `forceSetValue`. -/
def directWrite2 (mf : MathFieldApi) : WriteStep :=
  if mf.hasSetValue then .apiSetValue else .forcedAssign

def setMathFieldValueTrace (mf : MathFieldApi) : List WriteStep :=
  (if mf.id.isSome then [.injectedScript] else []) ++
    [.pasteDispatch, .settle 80, directWrite1 mf, .notifyInput, .notifyChange,
      .settle 120, directWrite2 mf, .notifyInput]

/-- The three write strategies the claim speaks about. -/
inductive WriteKind where
  | paste
  | direct
  | injected
deriving DecidableEq, Repr

def stepKind : WriteStep → Option WriteKind
  | .pasteDispatch => some .paste
  | .injectedScript => some .injected
  | .apiSetValue => some .direct
  | .apiInsert => some .direct
  | .apiExecuteCommand => some .direct
  | .forcedAssign => some .direct
  | _ => none

/-- The subsequence of value-write steps of a trace, by kind. -/
def writesOf (t : List WriteStep) : List WriteKind := t.filterMap stepKind

/-- Stated per the claim's words (refinement side, not from the source): the
three-step sequence — paste, then direct API write, then injected script as
the last resort — performed twice in total. -/
def claimedWriteOrder : List WriteKind :=
  [.paste, .direct, .injected, .paste, .direct, .injected]

/-! ## Popup model listing (popup.js lines 5–22) -/

def EXCLUDED_MODEL_KEYWORDS : List String :=
  ["whisper", "orpheus", "prompt-guard", "safeguard"]

def isChatModel (id : String) : Bool :=
  !(EXCLUDED_MODEL_KEYWORDS.any (fun k =>
    containsSeq (toLowerChars id.data) k.data))

/-- `fetchModels` on a successful response whose records carry the
identifiers `ids`: filter out the non-chat families, then sort with the
`localeCompare` comparator (modelled as lexicographic string order). -/
def fetchModels (ids : List String) : List String :=
  (ids.filter isChatModel).mergeSort (fun a b => a ≤ b)

/-! ## Concrete documents used as test inputs -/

/-- A labelled answer list with two items, each holding a button with a
nonempty label. -/
def goodQuizUl : Dom :=
  .elem "ul" [("aria-labelledby", "question-1")] []
    [.elem "li" [] []
        [.elem "button" [("type", "button")] []
            [.elem "div" [("class", "Markdown_root")] [] [.text "Choice A Three"]]],
      .elem "li" [] []
        [.elem "button" [("type", "button")] []
            [.elem "div" [("class", "Markdown_root")] [] [.text "Choice B Four"]]]]

def goodQuizDoc : Dom :=
  .elem "html" [] []
    [.elem "body" [] []
        [.elem "article" [] []
            [.elem "div" [] [] [.text "What is two plus two?"], goodQuizUl]]]

/-- A labelled answer list with a single item. -/
def oneItemUl : Dom :=
  .elem "ul" [("aria-labelledby", "question-2")] []
    [.elem "li" [] []
        [.elem "button" [("type", "button")] [] [.elem "div" [] [] [.text "Four"]]]]

def oneItemDoc : Dom :=
  .elem "html" [] [] [.elem "body" [] [] [.elem "article" [] [] [oneItemUl]]]

/-- A quiz whose entire structure lives inside the shadow tree of a light-DOM
host `div`; the light DOM holds no article and no answer list. -/
def shadowQuizDoc : Dom :=
  .elem "html" [] []
    [.elem "body" [] []
        [.elem "div" []
            [.elem "article" [] []
                [.elem "div" [] [] [.text "What is two plus two equal to?"],
                  .elem "ul" [("aria-labelledby", "question-3")] []
                    [.elem "li" [] []
                        [.elem "button" [("type", "button")] []
                            [.elem "div" [] [] [.text "Three"]]],
                      .elem "li" [] []
                        [.elem "button" [("type", "button")] []
                            [.elem "div" [] [] [.text "Four"]]]]]]
            []]]

/-- An answer list whose first button has no label text at all and whose
second is labelled `"Paris"`. -/
def emptyLabelDoc : Dom :=
  .elem "html" [] []
    [.elem "body" [] []
        [.elem "article" [] []
            [.elem "ul" [("aria-labelledby", "question-4")] []
                [.elem "li" [] [] [.elem "button" [("type", "button")] [] []],
                  .elem "li" [] []
                    [.elem "button" [("type", "button")] []
                        [.elem "div" [] [] [.text "Paris"]]]]]]]

/-- A page whose Check Answer button carries `aria-disabled="false"`. -/
def ariaFalseDoc : Dom :=
  .elem "html" [] []
    [.elem "body" [] []
        [.elem "button" [("aria-disabled", "false")] [] [.text "Check Answer"]]]

/-- A Next button carrying `aria-disabled="true"` but no `disabled`
attribute. -/
def nextAriaBtn : Dom := .elem "button" [("aria-disabled", "true")] [] [.text "Next"]

def nextAriaDoc : Dom :=
  .elem "html" [] [] [.elem "body" [] [] [nextAriaBtn]]

/-- An enabled Check Answer button (no `aria-disabled` attribute). -/
def checkOkBtn : Dom := .elem "button" [] [] [.text "Check Answer"]

def checkOkDoc : Dom :=
  .elem "html" [] [] [.elem "body" [] [] [checkOkBtn]]

/-- C1 (counterexample): the claim reads the parse as acting on the plain
concatenation of the content and reasoning strings.  On content `"1"`,
reasoning `"2"` with 3 choices, the concatenation `"12"` holds no integer
token in `[1,3]`, so the claim requires `null`; the code space-joins the two
strings and returns `2`.  Moreover on content `"123"` with 150 choices the
concatenation holds the in-range integer token `123`, so the claim requires
`123`; the code's regex only matches one- or two-digit runs and returns
`null`. -/
theorem c1_parse_counterexample :
    claimLastTokenOfConcat "1" "2" 3 = none ∧
    parseAnswerIndex "1" "2" 3 = some 2 ∧
    claimLastTokenOfConcat "123" "" 150 = some 123 ∧
    parseAnswerIndex "123" "" 150 = none :=
  ⟨by decide, by decide, by decide, by decide⟩

/-- C1 (amended): for every oracle response with primary content `c` and
reasoning `r` and every choice count `n`, `callGroqAPI` returns the value of
the last integer token of the space-separated concatenation of `c` and `r`
lying in `[1, n]` — an integer token being a maximal alphanumeric run of one
or two digits with nonzero leading digit — and `null` when there is none; in
particular content `"1 or maybe 2"` with 3 choices yields `2`, and empty
content with reasoning `"...final answer is 2..."` yields `2`. -/
theorem c1_parse_amended :
    (∀ (c r : String) (n : Nat), parseAnswerIndex c r n = amendedLastToken c r n) ∧
    parseAnswerIndex "1 or maybe 2" "" 3 = some 2 ∧
    parseAnswerIndex "" "...final answer is 2..." 3 = some 2 := by
  refine ⟨fun c r n => ?_, by decide, by decide⟩
  unfold parseAnswerIndex parseAnswerIndexChars amendedLastToken
  simp only [List.filter_map, Function.comp, List.getLast?_eq_head?_reverse,
    ← List.map_reverse, List.head?_map, ← List.filter_reverse,
    List.filter_head?, List.find?_filter]
  congr 2
  funext a
  simp

/-- C2: for a solve attempt with a non-empty question, non-empty answers and
`M` extracted buttons, an oracle index `k` with `1 ≤ k ≤ M` makes
`solveCurrentQuestion` click exactly the `k`-th button and report success
with index `k`; an oracle `null` or an out-of-range index makes it click
nothing and report an invalid-response failure. -/
theorem c2_solve_actuation (question : String) (answers : List String)
    (M : Nat) (oracle : Option Nat)
    (hq : question ≠ "") (ha : answers ≠ []) (hM : M ≠ 0) :
    (∀ k, oracle = some k → 1 ≤ k → k ≤ M →
      solveCurrentQuestionWith question answers M oracle =
        { report := .success k, clicks := [k] }) ∧
    (oracle = none →
      solveCurrentQuestionWith question answers M oracle =
        { report := .failure "Invalid API response (got null)", clicks := [] }) ∧
    (∀ k, oracle = some k → (k < 1 ∨ M < k) →
      solveCurrentQuestionWith question answers M oracle =
        { report := .failure s!"Invalid API response (got {k})", clicks := [] }) := by
  refine ⟨?_, ?_, ?_⟩
  · intro k hk h1 h2
    subst hk
    have hk0 : k ≠ 0 := Nat.pos_iff_ne_zero.mp h1
    have hMk : ¬ M < k := Nat.not_lt.mpr h2
    simp [solveCurrentQuestionWith, hq, ha, hM, hk0, hMk]
  · intro hk
    subst hk
    simp [solveCurrentQuestionWith, hq, ha, hM]
  · intro k hk hout
    subst hk
    have hcond : k = 0 ∨ M < k := by
      rcases hout with h | h
      · exact Or.inl (Nat.lt_one_iff.mp h)
      · exact Or.inr h
    simp [solveCurrentQuestionWith, hq, ha, hM, hcond]

/-- C2 witness: with question `"Q"`, answers `["a", "b"]`, two buttons and a
mocked oracle returning 2, the second button alone is clicked and success
with index 2 reported. -/
theorem c2_solve_actuation_witness :
    solveCurrentQuestionWith "Q" ["a", "b"] 2 (some 2) =
      { report := .success 2, clicks := [2] } :=
  (c2_solve_actuation "Q" ["a", "b"] 2 (some 2) (by decide) (by decide)
    (by decide)).1 2 rfl (by decide) (by decide)

/-- C3: the claim says the advance action fires exactly once per video even
when several qualifying conditions coincide.  The code violates it: on a
fresh listener (`advanced = false`), one invocation of `checkTime` on a
video that is both within 10 seconds of its 100-second end and ended calls
`advanceToNext()` twice — the first branch sets `advanced` and fires, and
the unguarded `if (video.ended)` fires again in the same invocation.
Afterwards the guard does hold: further `checkTime` and `ended` deliveries
are no-ops. -/
theorem c3_watchdog_double_fire :
    checkTime true
        { duration := 100, durationIsNaN := false, currentTime := 100, ended := true }
        { advanced := false, navCount := 0 } =
      { advanced := true, navCount := 2 } ∧
    checkTime true
        { duration := 100, durationIsNaN := false, currentTime := 100, ended := true }
        { advanced := true, navCount := 2 } =
      { advanced := true, navCount := 2 } ∧
    onEnded true { advanced := true, navCount := 2 } =
      { advanced := true, navCount := 2 } := by
  refine ⟨?_, ?_, ?_⟩ <;>
    norm_num [checkTime, onEnded, ADVANCE_SECONDS_BEFORE_END]

/-- C7 (counterexample): on a field with an `id` and a `setValue` API, the
trace of value writes is injected-script first, then paste, then two direct
writes — not the claimed three-step sequence (paste, direct, injected-last)
performed twice; the injected script runs once and first, not twice and
last. -/
theorem c7_mathfield_counterexample :
    writesOf (setMathFieldValueTrace
        { id := some "mf-1", hasSetValue := true, hasInsert := false,
          hasExecuteCommand := false }) =
      [.injected, .paste, .direct, .direct] ∧
    writesOf (setMathFieldValueTrace
        { id := some "mf-1", hasSetValue := true, hasInsert := false,
          hasExecuteCommand := false }) ≠ claimedWriteOrder ∧
    (setMathFieldValueTrace
        { id := some "mf-1", hasSetValue := true, hasInsert := false,
          hasExecuteCommand := false }).head? = some .injectedScript := by
  refine ⟨rfl, by decide, rfl⟩

/-- C7 (amended): for every math field, the actuator performs the write
sequence: an injected same-origin script write first (exactly when the field
has an id), then a synthetic clipboard-paste dispatch, then after an 80 ms
settle delay a direct settable-value write, then after a further 120 ms
settle delay a second direct write — the direct write twice, the paste and
injected-script writes at most once each, with the settle delays between the
successive attempts. -/
theorem c7_mathfield_amended (mf : MathFieldApi) :
    writesOf (setMathFieldValueTrace mf) =
      (if mf.id.isSome then [WriteKind.injected] else []) ++
        [.paste, .direct, .direct] ∧
    (setMathFieldValueTrace mf).filter
        (fun s => (stepKind s).isSome || s == .settle 80 || s == .settle 120) =
      (if mf.id.isSome then [WriteStep.injectedScript] else []) ++
        [.pasteDispatch, .settle 80, directWrite1 mf, .settle 120,
          directWrite2 mf] := by
  obtain ⟨id, sv, ins, ec⟩ := mf
  cases id <;> cases sv <;> cases ins <;> cases ec <;> exact ⟨rfl, rfl⟩

/-- Once the flag reads false at a boundary, the loop body never runs. -/
theorem runAllTrace_flag_false (env : Nat → IterEnv) (stopAt : Option Nat)
    (fuel i : Nat) (h : flagAt stopAt i = false) :
    runAllTrace env stopAt fuel i = [] := by
  cases fuel with
  | zero => rfl
  | succ n => simp [runAllTrace, h]

/-- Every event the loop emits from iteration `i` onwards belongs to an
iteration `≥ i`. -/
theorem runAllTrace_iter_ge (env : Nat → IterEnv) (stopAt : Option Nat) :
    ∀ (fuel i : Nat) (e : RunEvent), e ∈ runAllTrace env stopAt fuel i →
      i ≤ e.iter := by
  intro fuel
  induction fuel with
  | zero => intro i e he; simp [runAllTrace] at he
  | succ n ih =>
    intro i e he
    rw [runAllTrace] at he
    split at he
    · rcases List.mem_cons.mp he with rfl | he2
      · exact Nat.le_refl _
      · split at he2
        · rcases List.mem_cons.mp he2 with rfl | he3
          · exact Nat.le_refl _
          · rcases List.mem_append.mp he3 with he4 | he5
            · split at he4
              · rcases List.mem_singleton.mp he4 with rfl
                exact Nat.le_refl _
              · simp at he4
            · split at he5
              · rcases List.mem_cons.mp he5 with rfl | he6
                · exact Nat.le_refl _
                · exact Nat.le_of_succ_le (ih (i + 1) e he6)
              · simp at he5
        · simp at he2
    · simp at he

/-- A run stopped during iteration `j` performs exactly the events the
unstopped run performs in iterations `0..j`. -/
theorem runAllTrace_stop_filter (env : Nat → IterEnv) (j : Nat) :
    ∀ (fuel i : Nat), i ≤ j →
      runAllTrace env (some j) fuel i =
        (runAllTrace env none fuel i).filter (fun e => e.iter ≤ j) := by
  intro fuel
  induction fuel with
  | zero => intro i _; rfl
  | succ n ih =>
    intro i hij
    have hflag : flagAt (some j) i = true := by simp [flagAt, hij]
    have hrec : runAllTrace env (some j) n (i + 1) =
        (runAllTrace env none n (i + 1)).filter (fun e => decide (e.iter ≤ j)) := by
      by_cases hij1 : i + 1 ≤ j
      · exact ih (i + 1) hij1
      · have hflag1 : flagAt (some j) (i + 1) = false := by
          simp only [flagAt, decide_eq_false_iff_not]
          omega
        rw [runAllTrace_flag_false env _ n _ hflag1]
        symm
        rw [List.filter_eq_nil_iff]
        intro e he
        have hge := runAllTrace_iter_ge env none n (i + 1) e he
        simp only [decide_eq_true_eq]
        omega
    by_cases hq : (env i).isQuiz <;>
      by_cases hs : (env i).solveOk <;>
        by_cases hc : (env i).checkBtn <;>
          by_cases hn : (env i).nextBtn <;>
            simp [runAllTrace, flagAt, hflag, hq, hs, hc, hn, hij, hrec,
              List.filter_cons, List.filter_append, RunEvent.iter]

/-- C4: when a stop request lands during iteration `j` of the Run-All loop,
the cleared flag is observed at the next boundary: every event of the
stopped run belongs to an iteration `≤ j` (no further extraction or click of
any kind afterwards), and the stopped run performs exactly the events the
unstopped run performs through iteration `j` — so the in-flight iteration's
own solve, check and next steps still complete. -/
theorem c4_stop_at_boundary (env : Nat → IterEnv) (j fuel : Nat) :
    (∀ e ∈ runAllTrace env (some j) fuel 0, e.iter ≤ j) ∧
    runAllTrace env (some j) fuel 0 =
      (runAllTrace env none fuel 0).filter (fun e => e.iter ≤ j) := by
  have h2 := runAllTrace_stop_filter env j fuel 0 (Nat.zero_le j)
  refine ⟨?_, h2⟩
  intro e he
  rw [h2] at he
  simpa using (List.mem_filter.mp he).2

/-- C4 witness: in a 5-iteration-fuel run over an always-solvable quiz with
the stop pressed during iteration 1, the answer click of iteration 0 is in
the trace and the theorem bounds its iteration by 1. -/
theorem c4_stop_at_boundary_witness :
    RunEvent.iter (.answerClick 0) ≤ 1 :=
  (c4_stop_at_boundary
      (fun _ => { isQuiz := true, solveOk := true, checkBtn := true, nextBtn := true })
      1 5).1 (.answerClick 0) (by decide)

/-- Unfolding of the chat-model filter: no excluded keyword occurs in the
lowercased identifier. -/
theorem isChatModel_iff (m : String) :
    isChatModel m = true ↔
      ∀ k ∈ EXCLUDED_MODEL_KEYWORDS,
        containsSeq (toLowerChars m.data) k.data = false := by
  simp [isChatModel, List.any_eq_true]

/-- C9: on a successful model-listing response carrying identifiers `ids`,
the client returns a permutation of exactly the identifiers free (after
lowercasing) of every excluded family substring, sorted by the string
order. -/
theorem c9_model_listing (ids : List String) :
    List.Perm (fetchModels ids) (ids.filter isChatModel) ∧
    List.Pairwise (fun a b : String => a ≤ b) (fetchModels ids) ∧
    ∀ m, m ∈ fetchModels ids ↔ m ∈ ids ∧
      ∀ k ∈ EXCLUDED_MODEL_KEYWORDS,
        containsSeq (toLowerChars m.data) k.data = false := by
  refine ⟨List.mergeSort_perm _ _, ?_, ?_⟩
  · have htrans : ∀ a b c : String,
        (fun a b : String => (a ≤ b : Bool)) a b →
          (fun a b : String => (a ≤ b : Bool)) b c →
            (fun a b : String => (a ≤ b : Bool)) a c := by
      intro a b c hab hbc
      simp only [decide_eq_true_eq] at *
      exact le_trans hab hbc
    have htotal : ∀ a b : String,
        ((fun a b : String => (a ≤ b : Bool)) a b ||
          (fun a b : String => (a ≤ b : Bool)) b a) = true := by
      intro a b
      simp only [Bool.or_eq_true, decide_eq_true_eq]
      exact le_total a b
    have h := List.sorted_mergeSort htrans htotal (ids.filter isChatModel)
    exact h.imp (fun hab => by simpa using hab)
  · intro m
    rw [fetchModels, List.mem_mergeSort, List.mem_filter, ← isChatModel_iff]

/-- C9 witness: `"llama-a"` is kept (no excluded substring) in a listing
that also contains a whisper model. -/
theorem c9_model_listing_witness :
    "llama-a" ∈ fetchModels ["llama-b", "whisper-large-v3", "llama-a"] :=
  ((c9_model_listing ["llama-b", "whisper-large-v3", "llama-a"]).2.2
      "llama-a").mpr ⟨by decide, by decide⟩

/-- A successful `querySelector` returns a matching descendant. -/
theorem qs_eq_some (doc : Dom) (sel : Selector) (e : Dom)
    (h : doc.qs sel = some e) : e ∈ doc.descendants ∧ e.matches sel = true := by
  rw [Dom.qs, Dom.qsa, List.filter_head?] at h
  refine ⟨List.mem_of_find?_eq_some h, ?_⟩
  have hp := List.find?_some (p := fun d : Dom => d.matches sel) h
  simpa using hp

/-- C5: the classifier reports Quiz only if the document contains a labelled
answer-list element with at least two list items and at least two of them
holding a clickable button; in particular a document whose answer list has a
single item is never classified Quiz. -/
theorem c5_quiz_classifier :
    (∀ doc : Dom, isQuizPage doc = true →
      ∃ al, doc.qs answerListSel = some al ∧ al ∈ doc.descendants ∧
        al.matches answerListSel = true ∧
        2 ≤ (answerItems al).length ∧
        2 ≤ ((answerItems al).filterMap
              (fun li => li.qs answerButtonSel)).length) ∧
    (∀ (doc al : Dom), doc.qs answerListSel = some al →
      (answerItems al).length = 1 → isQuizPage doc = false) := by
  constructor
  · intro doc h
    rw [isQuizPage.eq_def] at h
    split at h
    · exact absurd h (by simp)
    next al hqs =>
      obtain ⟨hmem, hmatch⟩ := qs_eq_some doc _ al hqs
      simp only at h
      split at h
      · exact absurd h (by simp)
      next hlen =>
        simp only [Bool.not_eq_true', decide_eq_false_iff_not, Nat.not_lt] at h
        exact ⟨al, hqs, hmem, hmatch, Nat.not_lt.mp hlen, h⟩
  · intro doc al hqs hlen
    rw [isQuizPage.eq_def, hqs]
    simp [hlen]

/-- C5 witness: the single-item document is not classified Quiz. -/
theorem c5_quiz_classifier_witness : isQuizPage oneItemDoc = false :=
  c5_quiz_classifier.2 oneItemDoc oneItemUl rfl (by decide)

/-- The Check Answer poll only ever returns a button with no `aria-disabled`
attribute at all. -/
theorem waitCheck_no_aria (pages : Nat → Dom) :
    ∀ (fuel t : Nat) (b : Dom),
      waitForCheckAnswerEnabled pages fuel t = some b →
      b.hasAttr "aria-disabled" = false := by
  intro fuel
  induction fuel with
  | zero => intro t b h; simp [waitForCheckAnswerEnabled] at h
  | succ n ih =>
    intro t b h
    rw [waitForCheckAnswerEnabled] at h
    split at h
    next btn heq =>
      split at h
      next hd =>
        cases h
        simpa using hd
      next hd => exact ih (t + 1) b h
    next heq => exact ih (t + 1) b h

/-- The Next poll only ever returns a button whose `disabled` property is
false. -/
theorem waitNext_not_disabled (pages : Nat → Dom) :
    ∀ (fuel t : Nat) (b : Dom),
      waitForNextButton pages fuel t = some b → b.disabledProp = false := by
  intro fuel
  induction fuel with
  | zero => intro t b h; simp [waitForNextButton] at h
  | succ n ih =>
    intro t b h
    rw [waitForNextButton] at h
    split at h
    next btn heq =>
      split at h
      next hd =>
        cases h
        simpa using hd
      next hd => exact ih (t + 1) b h
    next heq => exact ih (t + 1) b h

/-- On a page whose Check Answer button carries `aria-disabled="false"`, the
poll never returns it, regardless of the timeout. -/
theorem waitCheck_ariaFalse_none :
    ∀ fuel t : Nat,
      waitForCheckAnswerEnabled (fun _ => ariaFalseDoc) fuel t = none := by
  intro fuel
  induction fuel with
  | zero => intro t; rfl
  | succ n ih =>
    intro t
    rw [waitForCheckAnswerEnabled]
    exact ih (t + 1)

/-- C10: the Check Answer poll returns a button only if it carries no
`aria-disabled` attribute at all — a button with `aria-disabled="false"` is
treated as disabled and never returned — whereas the Next poll consults only
the `disabled` property and returns a button carrying `aria-disabled="true"`
without one. -/
theorem c10_poll_disabled_semantics :
    (∀ (pages : Nat → Dom) (fuel t : Nat) (b : Dom),
      waitForCheckAnswerEnabled pages fuel t = some b →
      b.hasAttr "aria-disabled" = false) ∧
    (∀ (pages : Nat → Dom) (fuel t : Nat) (b : Dom),
      waitForNextButton pages fuel t = some b → b.disabledProp = false) ∧
    (∀ fuel t : Nat,
      waitForCheckAnswerEnabled (fun _ => ariaFalseDoc) fuel t = none) ∧
    waitForNextButton (fun _ => nextAriaDoc) 1 0 = some nextAriaBtn ∧
    nextAriaBtn.hasAttr "aria-disabled" = true ∧
    nextAriaBtn.disabledProp = false :=
  ⟨waitCheck_no_aria, waitNext_not_disabled, waitCheck_ariaFalse_none,
    rfl, rfl, rfl⟩

/-- C10 witness: on a page with an enabled Check Answer button, the poll
returns it and the theorem yields the absence of `aria-disabled`. -/
theorem c10_poll_disabled_semantics_witness :
    checkOkBtn.hasAttr "aria-disabled" = false :=
  c10_poll_disabled_semantics.1 (fun _ => checkOkDoc) 1 0 checkOkBtn rfl

/-! ### Characterizing `findInDocument` -/

theorem rootedFind_def (sel : Selector) (ns : List Dom) :
    rootedFind sel ns =
      Option.orElse (firstMatch sel ns) (fun _ => shadowScan sel ns) := rfl

theorem rootedFind_isSome (sel : Selector) (ns : List Dom) :
    (rootedFind sel ns).isSome =
      ((firstMatch sel ns).isSome || (shadowScan sel ns).isSome) := by
  rw [rootedFind_def]
  cases firstMatch sel ns <;> simp [Option.orElse]

theorem rootedFind_eq_some (sel : Selector) (ns : List Dom) (e : Dom)
    (h : rootedFind sel ns = some e) :
    firstMatch sel ns = some e ∨ shadowScan sel ns = some e := by
  rw [rootedFind_def] at h
  cases heq : firstMatch sel ns with
  | some e1 =>
    rw [heq] at h
    exact Or.inl h
  | none =>
    rw [heq] at h
    exact Or.inr h

theorem firstMatchInside_elem (sel : Selector) (t : String)
    (a : List (String × String)) (sh ch : List Dom) :
    firstMatchInside sel (.elem t a sh ch) = firstMatch sel ch := by
  rw [firstMatchInside]

theorem firstMatch_cons (sel : Selector) (c : Dom) (cs : List Dom) :
    (firstMatch sel (c :: cs)).isSome =
      (c.matches sel || (firstMatchInside sel c).isSome ||
        (firstMatch sel cs).isSome) := by
  rw [firstMatch]
  by_cases hc : c.matches sel
  · simp [hc]
  · rw [if_neg hc]
    simp only [hc, Bool.false_or]
    cases firstMatchInside sel c <;> simp

theorem shadowScan_cons (sel : Selector) (c : Dom) (cs : List Dom) :
    (shadowScan sel (c :: cs)).isSome =
      ((shadowScanInside sel c).isSome || (shadowScan sel cs).isSome) := by
  rw [shadowScan]
  cases shadowScanInside sel c <;> simp

theorem shadowScanInside_elem (sel : Selector) (t : String)
    (a : List (String × String)) (sh ch : List Dom) :
    (shadowScanInside sel (.elem t a sh ch)).isSome =
      ((!sh.isEmpty && (rootedFind sel sh).isSome) ||
        (shadowScan sel ch).isSome) := by
  rw [shadowScanInside, ← rootedFind_def]
  by_cases hsh : sh.isEmpty
  · simp only [hsh, if_true, Bool.not_true, Bool.false_and, Bool.false_or]
  · simp only [hsh, if_false, Bool.not_false, Bool.true_and]
    cases rootedFind sel sh <;> cases shadowScan sel ch <;> simp

theorem mem_sdl_head (c : Dom) (cs : List Dom) : c ∈ shadowDescList (c :: cs) := by
  rw [shadowDescList]
  exact List.mem_cons_self _ _

theorem mem_sdl_of_sd (c : Dom) (cs : List Dom) (e : Dom) (h : e ∈ c.shadowDesc) :
    e ∈ shadowDescList (c :: cs) := by
  rw [shadowDescList]
  exact List.mem_cons_of_mem _ (List.mem_append_left _ h)

theorem mem_sdl_of_tail (c : Dom) (cs : List Dom) (e : Dom)
    (h : e ∈ shadowDescList cs) : e ∈ shadowDescList (c :: cs) := by
  rw [shadowDescList]
  exact List.mem_cons_of_mem _ (List.mem_append_right _ h)

theorem mem_sd_of_sh (t : String) (a : List (String × String)) (sh ch : List Dom)
    (e : Dom) (h : e ∈ shadowDescList sh) : e ∈ (Dom.elem t a sh ch).shadowDesc := by
  rw [Dom.shadowDesc]
  exact List.mem_append_left _ h

theorem mem_sd_of_ch (t : String) (a : List (String × String)) (sh ch : List Dom)
    (e : Dom) (h : e ∈ shadowDescList ch) : e ∈ (Dom.elem t a sh ch).shadowDesc := by
  rw [Dom.shadowDesc]
  exact List.mem_append_right _ h

mutual
/-- Soundness: whatever the light pass or the shadow pass of
`findInDocument` returns on a forest is a shadow-inclusive descendant
matching the selector. -/
theorem searchBoth_sound (sel : Selector) :
    ∀ (ns : List Dom) (e : Dom),
      firstMatch sel ns = some e ∨ shadowScan sel ns = some e →
      e ∈ shadowDescList ns ∧ e.matches sel = true
  | [], e, h => by
    rcases h with h | h <;> simp [firstMatch, shadowScan] at h
  | c :: cs, e, h => by
    rcases h with h | h
    · rw [firstMatch] at h
      split at h
      next hc =>
        cases h
        exact ⟨mem_sdl_head _ _, hc⟩
      next hc =>
        split at h
        next e1 heq =>
          cases h
          have hm := searchInside_sound sel c e (Or.inl heq)
          exact ⟨mem_sdl_of_sd _ _ _ hm.1, hm.2⟩
        next heq =>
          have hm := searchBoth_sound sel cs e (Or.inl h)
          exact ⟨mem_sdl_of_tail _ _ _ hm.1, hm.2⟩
    · rw [shadowScan] at h
      split at h
      next e1 heq =>
        cases h
        have hm := searchInside_sound sel c e (Or.inr heq)
        exact ⟨mem_sdl_of_sd _ _ _ hm.1, hm.2⟩
      next heq =>
        have hm := searchBoth_sound sel cs e (Or.inr h)
        exact ⟨mem_sdl_of_tail _ _ _ hm.1, hm.2⟩

/-- Soundness for a single node: a hit inside it (light descendants, or its
shadow pass) lies in its shadow-inclusive descendants. -/
theorem searchInside_sound (sel : Selector) :
    ∀ (c : Dom) (e : Dom),
      firstMatchInside sel c = some e ∨ shadowScanInside sel c = some e →
      e ∈ c.shadowDesc ∧ e.matches sel = true
  | .text s, e, h => by
    rcases h with h | h <;> simp [firstMatchInside, shadowScanInside] at h
  | .elem t a sh ch, e, h => by
    rcases h with h | h
    · rw [firstMatchInside] at h
      have hm := searchBoth_sound sel ch e (Or.inl h)
      exact ⟨mem_sd_of_ch t a sh ch e hm.1, hm.2⟩
    · rw [shadowScanInside] at h
      split at h
      next e1 heq =>
        cases h
        by_cases hsh : sh.isEmpty
        · rw [if_pos hsh] at heq
          cases heq
        · rw [if_neg hsh, ← rootedFind_def] at heq
          have hm := searchBoth_sound sel sh e (rootedFind_eq_some sel sh e heq)
          exact ⟨mem_sd_of_sh t a sh ch e hm.1, hm.2⟩
      next heq =>
        have hm := searchBoth_sound sel ch e (Or.inr h)
        exact ⟨mem_sd_of_ch t a sh ch e hm.1, hm.2⟩
end

mutual
/-- Completeness: a matching shadow-inclusive descendant of a forest makes
one of the two passes succeed. -/
theorem searchBoth_complete (sel : Selector) :
    ∀ (ns : List Dom) (d : Dom), d ∈ shadowDescList ns → d.matches sel = true →
      ((firstMatch sel ns).isSome || (shadowScan sel ns).isSome) = true
  | [], d, hmem, _ => by rw [shadowDescList] at hmem; cases hmem
  | c :: cs, d, hmem, hmatch => by
    rw [shadowDescList] at hmem
    rcases List.mem_cons.mp hmem with rfl | hmem2
    · simp [firstMatch_cons, hmatch]
    · rcases List.mem_append.mp hmem2 with hin | htl
      · have hrec := searchInside_complete sel c d hin hmatch
        have hrec2 : (firstMatchInside sel c).isSome = true ∨
            (shadowScanInside sel c).isSome = true := by simpa using hrec
        rcases hrec2 with h1 | h2
        · simp [firstMatch_cons, h1]
        · simp [shadowScan_cons, h2]
      · have hrec := searchBoth_complete sel cs d htl hmatch
        have hrec2 : (firstMatch sel cs).isSome = true ∨
            (shadowScan sel cs).isSome = true := by simpa using hrec
        rcases hrec2 with h1 | h2
        · simp [firstMatch_cons, h1]
        · simp [shadowScan_cons, h2]

/-- Completeness for a single node: a matching node among its
shadow-inclusive descendants is found by its light descent or its shadow
pass. -/
theorem searchInside_complete (sel : Selector) :
    ∀ (c : Dom) (d : Dom), d ∈ c.shadowDesc → d.matches sel = true →
      ((firstMatchInside sel c).isSome || (shadowScanInside sel c).isSome) = true
  | .text s, d, hmem, _ => by simp [Dom.shadowDesc] at hmem
  | .elem t a sh ch, d, hmem, hmatch => by
    rw [Dom.shadowDesc] at hmem
    rcases List.mem_append.mp hmem with hsh | hch
    · have hrec := searchBoth_complete sel sh d hsh hmatch
      have hsome : (rootedFind sel sh).isSome = true := by
        rw [rootedFind_isSome]; exact hrec
      have hne : sh.isEmpty = false := by
        cases sh with
        | nil => rw [shadowDescList] at hsh; cases hsh
        | cons x xs => rfl
      simp [shadowScanInside_elem, hne, hsome]
    · have hrec := searchBoth_complete sel ch d hch hmatch
      have hrec2 : (firstMatch sel ch).isSome = true ∨
          (shadowScan sel ch).isSome = true := by simpa using hrec
      rcases hrec2 with h1 | h2
      · simp [firstMatchInside_elem, h1]
      · simp [shadowScanInside_elem, h2]
end

/-- `findInDocument` succeeds exactly when a node matching the selector is
reachable from the root through light children and (nested) shadow trees. -/
theorem findInDocument_isSome_iff (root : Dom) (sel : Selector) :
    (findInDocument root sel).isSome = true ↔
      ∃ d ∈ searchSpace root, d.matches sel = true := by
  cases root with
  | text s => simp [findInDocument, searchSpace]
  | elem t a sh ch =>
    rw [findInDocument, searchSpace]
    constructor
    · intro h
      obtain ⟨e, he⟩ := Option.isSome_iff_exists.mp h
      have hm := searchBoth_sound sel ch e (rootedFind_eq_some sel ch e he)
      exact ⟨e, hm.1, hm.2⟩
    · rintro ⟨d, hmem, hmatch⟩
      rw [rootedFind_isSome]
      exact searchBoth_complete sel ch d hmem hmatch

/-- C6 (counterexample): on a document whose whole quiz structure lives only
inside a shadow tree, the quiz extraction functions return nothing — they
query the light DOM only — even though the shadow-piercing
`findInDocument` (used for the math-field and video lookups, not for quiz
extraction) does reach the answer list. -/
theorem c6_shadow_counterexample :
    getAnswers shadowQuizDoc = [] ∧
    getAnswerButtons shadowQuizDoc = [] ∧
    getQuestionText shadowQuizDoc = "" ∧
    isQuizPage shadowQuizDoc = false ∧
    (findInDocument shadowQuizDoc answerListSel).isSome = true :=
  ⟨rfl, rfl, rfl, rfl, rfl⟩

/-- C6 (amended): quiz extraction consults only the light DOM — whenever the
light DOM holds no answer list (or no article), `getAnswers`,
`getAnswerButtons` and `getQuestionText` return empty results even if a
shadow subtree holds one — while `findInDocument`, the shadow-piercing
locator the script uses for math-field and video discovery, finds a match
exactly when one is reachable through nested shadow roots. -/
theorem c6_shadow_amended :
    (∀ doc : Dom, doc.qs answerListSel = none →
      getAnswers doc = [] ∧ getAnswerButtons doc = [] ∧
      answerRecords doc = [] ∧ isQuizPage doc = false) ∧
    (∀ doc : Dom, doc.qs articleSel = none → getQuestionText doc = "") ∧
    (∀ (root : Dom) (sel : Selector),
      (findInDocument root sel).isSome = true ↔
        ∃ d ∈ searchSpace root, d.matches sel = true) := by
  refine ⟨?_, ?_, fun root sel => findInDocument_isSome_iff root sel⟩
  · intro doc h
    refine ⟨?_, ?_, ?_, ?_⟩ <;>
      simp [getAnswers, getAnswerButtons, answerRecords, isQuizPage, h]
  · intro doc h
    simp [getQuestionText, h]

/-- C6 amended witness: applied to the shadow-only quiz document, whose
light DOM holds no answer list. -/
theorem c6_shadow_amended_witness :
    getAnswers shadowQuizDoc = [] ∧ getAnswerButtons shadowQuizDoc = [] ∧
    answerRecords shadowQuizDoc = [] ∧ isQuizPage shadowQuizDoc = false :=
  c6_shadow_amended.1 shadowQuizDoc rfl

/-- The extracted buttons are the first components of the item records. -/
theorem buttons_eq_records_fst (items : List Dom) :
    items.filterMap (fun li => li.qs answerButtonSel) =
      (items.filterMap (fun li =>
        (li.qs answerButtonSel).map (fun btn => (btn, answerLabel btn)))).map
          Prod.fst := by
  induction items with
  | nil => rfl
  | cons li rest ih =>
    cases h : li.qs answerButtonSel <;>
      simp [List.filterMap_cons, h, ih]

/-- The extracted answers are the second components of the item records with
the empty labels dropped (an item without a button contributes the empty
string on the answers side and is dropped by the same filter). -/
theorem answers_eq_records_snd (items : List Dom) :
    (items.map (fun li =>
        match li.qs answerButtonSel with
        | none => ""
        | some btn => answerLabel btn)).filter (fun t => t ≠ "") =
      ((items.filterMap (fun li =>
        (li.qs answerButtonSel).map (fun btn => (btn, answerLabel btn)))).map
          Prod.snd).filter (fun t => t ≠ "") := by
  induction items with
  | nil => rfl
  | cons li rest ih =>
    cases h : li.qs answerButtonSel with
    | none =>
      simp only [List.map_cons, List.filterMap_cons, h, List.filter_cons]
      rw [ih]
      simp
    | some btn =>
      simp only [List.map_cons, List.filterMap_cons, h, Option.map_some',
        List.filter_cons, List.map_cons]
      rw [ih]

/-- C8 (counterexample): on a document whose first answer button has no
label text, `getAnswers` drops the empty label while `getAnswerButtons`
keeps the button, so the two sequences do not have equal length. -/
theorem c8_answers_buttons_counterexample :
    getAnswers emptyLabelDoc = ["Paris"] ∧
    (getAnswers emptyLabelDoc).length = 1 ∧
    (getAnswerButtons emptyLabelDoc).length = 2 ∧
    (getAnswers emptyLabelDoc).length ≠ (getAnswerButtons emptyLabelDoc).length :=
  ⟨rfl, rfl, rfl, by decide⟩

/-- C8 (amended): `getAnswerButtons` returns the buttons of the items that
have one, in order, and `getAnswers` the labels of those same buttons in the
same order with empty labels removed; whenever every extracted button's
label is nonempty — in particular on every document the claim's pairing
speaks about — the two sequences have equal length and the `i`-th button is
the one whose label is the `i`-th answer. -/
theorem c8_answers_buttons_amended (doc : Dom) :
    getAnswerButtons doc = (answerRecords doc).map Prod.fst ∧
    getAnswers doc = ((answerRecords doc).map Prod.snd).filter (fun t => t ≠ "") ∧
    ((∀ r ∈ answerRecords doc, r.2 ≠ "") →
      getAnswers doc = (answerRecords doc).map Prod.snd ∧
      (getAnswers doc).length = (getAnswerButtons doc).length) := by
  have h1 : getAnswerButtons doc = (answerRecords doc).map Prod.fst := by
    rw [getAnswerButtons, answerRecords]
    cases hqs : doc.qs answerListSel with
    | none => rfl
    | some al => exact buttons_eq_records_fst (answerItems al)
  have h2 : getAnswers doc =
      ((answerRecords doc).map Prod.snd).filter (fun t => t ≠ "") := by
    rw [getAnswers, answerRecords]
    cases hqs : doc.qs answerListSel with
    | none => rfl
    | some al => exact answers_eq_records_snd (answerItems al)
  refine ⟨h1, h2, fun hne => ?_⟩
  have h3 : getAnswers doc = (answerRecords doc).map Prod.snd := by
    rw [h2, List.filter_eq_self]
    intro s hs
    obtain ⟨r, hr, rfl⟩ := List.mem_map.mp hs
    simpa using hne r hr
  refine ⟨h3, ?_⟩
  rw [h3, h1]
  simp

/-- C8 witness: on the two-item quiz document with nonempty labels, answers
and buttons correspond one to one. -/
theorem c8_answers_buttons_amended_witness :
    getAnswers goodQuizDoc = (answerRecords goodQuizDoc).map Prod.snd ∧
    (getAnswers goodQuizDoc).length = (getAnswerButtons goodQuizDoc).length :=
  (c8_answers_buttons_amended goodQuizDoc).2.2 (by decide)

end Atomi
